import Mathlib

/-!
Verification of the Poloniex-AI data-synchronization engine
(`Source/poloniex_bot.py`, `Source/poloniex_scraping_bot.py`,
`Source/poloniex_wrapper.py`) against its natural-language specification.

Time is modelled in microseconds since the UNIX epoch (Python `datetime`
has microsecond resolution; `timedelta(microseconds=1)` is one unit).
-/

namespace PoloniexAI

/-- One day in microseconds (Python `timedelta(days=1)`). -/
def oneDay : Nat := 86400000000

lemma oneDay_eq : oneDay = 86400000000 := rfl

lemma oneDay_pos : 0 < oneDay := by decide

/-- The clamp performed at the top of every sync loop iteration
(`if current_date_end > end_date: current_date_end = end_date`,
`poloniex_bot.py` lines 47-48, 95-96, 140-141). -/
def clampEnd (cde endd : Nat) : Nat :=
  if cde > endd then endd else cde

/-- The per-market window walk of `get_trade_history_between_dates`
(`poloniex_bot.py` lines 46-48 and 62-63) with every fetch succeeding:
while `current_date_start < end_date`, clamp `current_date_end` to
`end_date`, fetch the window `(current_date_start, current_date_end)`,
then advance both bounds by one day.  Returns the list of fetched
windows.  `get_chart_data_between_dates` (lines 139-141, 168-169)
generates the same windows on its success path. -/
def walkWindows (cds cde endd : Nat) : List (Nat × Nat) :=
  if _h : cds < endd then
    (cds, clampEnd cde endd) ::
      walkWindows (cds + oneDay) (clampEnd cde endd + oneDay) endd
  else []
termination_by endd - cds
decreasing_by
  simp only [oneDay]
  omega

/-- Windows fetched for one market when syncing `[start, endd)`:
the walk starts from `current_date_start = start_date`,
`current_date_end = start_date + timedelta(days=1) - timedelta(microseconds=1)`
(`poloniex_bot.py` lines 44-45, 136-137). -/
def syncWindows (start endd : Nat) : List (Nat × Nat) :=
  walkWindows start (start + oneDay - 1) endd

/-- End of the final fetched window, as the code actually produces it:
`endd - 1` microsecond when the range length is an exact multiple of one
day (the clamp never fires), and `endd` otherwise. -/
def lastWindowEnd (start endd : Nat) : Nat :=
  if (endd - start) % oneDay = 0 then endd - 1 else endd

lemma walkWindows_pos {cds endd : Nat} (cde : Nat) (h : cds < endd) :
    walkWindows cds cde endd =
      (cds, clampEnd cde endd) ::
        walkWindows (cds + oneDay) (clampEnd cde endd + oneDay) endd := by
  rw [walkWindows]
  simp [h]

lemma walkWindows_neg {cds endd : Nat} (cde : Nat) (h : ¬ cds < endd) :
    walkWindows cds cde endd = [] := by
  rw [walkWindows]
  simp [h]

lemma clampEnd_le_left (cde endd : Nat) : clampEnd cde endd ≤ cde := by
  unfold clampEnd
  split <;> omega

lemma clampEnd_le_right (cde endd : Nat) : clampEnd cde endd ≤ endd := by
  unfold clampEnd
  split <;> omega

lemma clampEnd_of_le {cde endd : Nat} (h : cde ≤ endd) :
    clampEnd cde endd = cde := by
  unfold clampEnd
  split <;> omega

/-- Every window produced by the walk (under the invariant
`cde + 1 = cds + oneDay` that holds whenever the loop is entered) starts
no earlier than the current start, is well-formed, ends no later than the
global end (the clamp happened before the fetch), and spans at most one
day of microsecond ticks. -/
lemma walk_mem_aux :
    ∀ (N cds cde endd : Nat), endd - cds ≤ N → cde + 1 = cds + oneDay →
      ∀ w ∈ walkWindows cds cde endd,
        cds ≤ w.1 ∧ w.1 ≤ w.2 ∧ w.2 ≤ endd ∧ w.2 + 1 ≤ w.1 + oneDay := by
  intro N
  induction N with
  | zero =>
    intro cds cde endd hN _ w hw
    rw [walkWindows_neg cde (by omega)] at hw
    simp at hw
  | succ n ih =>
    intro cds cde endd hN hinv w hw
    by_cases h : cds < endd
    · rw [walkWindows_pos cde h, List.mem_cons] at hw
      rcases hw with hw | hw
      · subst hw
        have h1 : cds ≤ clampEnd cde endd := by
          have hp := oneDay_pos
          unfold clampEnd
          split <;> omega
        have h2' : clampEnd cde endd ≤ endd := clampEnd_le_right _ _
        have h3 : clampEnd cde endd + 1 ≤ cds + oneDay := by
          have := clampEnd_le_left cde endd
          omega
        exact ⟨le_refl _, h1, h2', h3⟩
      · by_cases h2 : cds + oneDay < endd
        · have hnoclamp : clampEnd cde endd = cde := clampEnd_of_le (by omega)
          rw [hnoclamp] at hw
          obtain ⟨a1, a2, a3, a4⟩ := ih (cds + oneDay) (cde + oneDay) endd
            (by have := oneDay_pos; omega) (by omega) w hw
          exact ⟨by omega, a2, a3, a4⟩
        · have hclamp := clampEnd_le_left cde endd
          rw [walkWindows_neg _ (by omega)] at hw
          simp at hw
    · rw [walkWindows_neg cde h] at hw
      simp at hw

/-- Consecutive windows are contiguous at microsecond granularity: the
next window's start is the previous window's end plus one microsecond. -/
lemma walk_chain_aux :
    ∀ (N cds cde endd : Nat), endd - cds ≤ N → cde + 1 = cds + oneDay →
      List.Chain' (fun a b : Nat × Nat => b.1 = a.2 + 1)
        (walkWindows cds cde endd) := by
  intro N
  induction N with
  | zero =>
    intro cds cde endd hN _
    rw [walkWindows_neg cde (by omega)]
    exact List.chain'_nil
  | succ n ih =>
    intro cds cde endd hN hinv
    by_cases h : cds < endd
    · rw [walkWindows_pos cde h, List.chain'_cons']
      constructor
      · intro y hy
        by_cases h2 : cds + oneDay < endd
        · have hnoclamp : clampEnd cde endd = cde := clampEnd_of_le (by omega)
          rw [hnoclamp, walkWindows_pos (cde + oneDay) h2] at hy
          simp only [List.head?_cons, Option.mem_def, Option.some.injEq] at hy
          subst hy
          simp only [hnoclamp]
          show cds + oneDay = cde + 1
          omega
        · have hclamp := clampEnd_le_left cde endd
          rw [walkWindows_neg _ (by omega)] at hy
          simp at hy
      · by_cases h2 : cds + oneDay < endd
        · have hnoclamp : clampEnd cde endd = cde := clampEnd_of_le (by omega)
          rw [hnoclamp]
          exact ih (cds + oneDay) (cde + oneDay) endd
            (by have := oneDay_pos; omega) (by omega)
        · have hclamp := clampEnd_le_left cde endd
          rw [walkWindows_neg _ (by omega)]
          exact List.chain'_nil
    · rw [walkWindows_neg cde h]
      exact List.chain'_nil

/-- The final window's end is `endd - 1` when the remaining range is an
exact multiple of one day and `endd` otherwise. -/
lemma walk_last_aux :
    ∀ (N cds cde endd : Nat), endd - cds ≤ N → cds < endd →
      cde + 1 = cds + oneDay →
      (walkWindows cds cde endd).getLast?.map Prod.snd =
        some (lastWindowEnd cds endd) := by
  intro N
  induction N with
  | zero =>
    intro cds cde endd hN h _
    omega
  | succ n ih =>
    intro cds cde endd hN h hinv
    rw [walkWindows_pos cde h]
    by_cases h2 : cds + oneDay < endd
    · have hnoclamp : clampEnd cde endd = cde := clampEnd_of_le (by omega)
      rw [hnoclamp]
      have htail := ih (cds + oneDay) (cde + oneDay) endd
        (by have := oneDay_pos; omega) h2 (by omega)
      have hne : walkWindows (cds + oneDay) (cde + oneDay) endd ≠ [] := by
        intro hcon
        rw [hcon] at htail
        simp at htail
      rcases List.exists_cons_of_ne_nil hne with ⟨b, t, hbt⟩
      rw [hbt] at htail
      have heq : lastWindowEnd (cds + oneDay) endd = lastWindowEnd cds endd := by
        unfold lastWindowEnd
        have hmod : (endd - (cds + oneDay)) % oneDay = (endd - cds) % oneDay := by
          have h2' := h2
          simp only [oneDay_eq] at h2' ⊢
          omega
        rw [hmod]
      rw [hbt, List.getLast?_cons_cons, htail, heq]
    · have hclamp := clampEnd_le_left cde endd
      rw [walkWindows_neg _ (by omega)]
      have hval : clampEnd cde endd = lastWindowEnd cds endd := by
        have h2' := h2
        have hinv' := hinv
        unfold clampEnd lastWindowEnd
        simp only [oneDay_eq] at h2' hinv' ⊢
        split <;> split <;> omega
      simp [hval]

lemma lastWindowEnd_shift {cds endd : Nat} (h2 : cds + oneDay < endd) :
    lastWindowEnd (cds + oneDay) endd = lastWindowEnd cds endd := by
  unfold lastWindowEnd
  have hmod : (endd - (cds + oneDay)) % oneDay = (endd - cds) % oneDay := by
    have h2' := h2
    simp only [oneDay_eq] at h2' ⊢
    omega
  rw [hmod]

lemma clampEnd_eq_lastWindowEnd {cds cde endd : Nat} (h : cds < endd)
    (h2 : ¬ cds + oneDay < endd) (hinv : cde + 1 = cds + oneDay) :
    clampEnd cde endd = lastWindowEnd cds endd := by
  have h2' := h2
  have hinv' := hinv
  unfold clampEnd lastWindowEnd
  simp only [oneDay_eq] at h2' hinv' ⊢
  split <;> split <;> omega

/-- Distinct windows are disjoint: any earlier window ends strictly
before any later window starts. -/
lemma walk_pairwise_aux :
    ∀ (N cds cde endd : Nat), endd - cds ≤ N → cde + 1 = cds + oneDay →
      List.Pairwise (fun a b : Nat × Nat => a.2 < b.1)
        (walkWindows cds cde endd) := by
  intro N
  induction N with
  | zero =>
    intro cds cde endd hN _
    rw [walkWindows_neg cde (by omega)]
    exact List.Pairwise.nil
  | succ n ih =>
    intro cds cde endd hN hinv
    by_cases h : cds < endd
    · rw [walkWindows_pos cde h, List.pairwise_cons]
      constructor
      · intro b hb
        by_cases h2 : cds + oneDay < endd
        · have hnoclamp : clampEnd cde endd = cde := clampEnd_of_le (by omega)
          rw [hnoclamp] at hb ⊢
          obtain ⟨a1, _, _, _⟩ := walk_mem_aux n (cds + oneDay) (cde + oneDay)
            endd (by have := oneDay_pos; omega) (by omega) b hb
          show cde < b.1
          omega
        · have hclamp := clampEnd_le_left cde endd
          rw [walkWindows_neg _ (by omega)] at hb
          simp at hb
      · by_cases h2 : cds + oneDay < endd
        · have hnoclamp : clampEnd cde endd = cde := clampEnd_of_le (by omega)
          rw [hnoclamp]
          exact ih (cds + oneDay) (cde + oneDay) endd
            (by have := oneDay_pos; omega) (by omega)
        · have hclamp := clampEnd_le_left cde endd
          rw [walkWindows_neg _ (by omega)]
          exact List.Pairwise.nil
    · rw [walkWindows_neg cde h]
      exact List.Pairwise.nil

/-- Every microsecond tick of `[cds, lastWindowEnd cds endd]` is covered
by some fetched window. -/
lemma walk_cover_aux :
    ∀ (N cds cde endd : Nat), endd - cds ≤ N → cds < endd →
      cde + 1 = cds + oneDay →
      ∀ t, cds ≤ t → t ≤ lastWindowEnd cds endd →
        ∃ w ∈ walkWindows cds cde endd, w.1 ≤ t ∧ t ≤ w.2 := by
  intro N
  induction N with
  | zero =>
    intro cds cde endd hN h _
    omega
  | succ n ih =>
    intro cds cde endd hN h hinv t ht1 ht2
    rw [walkWindows_pos cde h]
    by_cases h2 : cds + oneDay < endd
    · have hnoclamp : clampEnd cde endd = cde := clampEnd_of_le (by omega)
      rw [hnoclamp]
      by_cases htc : t ≤ cde
      · exact ⟨(cds, cde), List.mem_cons_self _ _, ht1, htc⟩
      · have ht3 : t ≤ lastWindowEnd (cds + oneDay) endd := by
          rw [lastWindowEnd_shift h2]
          exact ht2
        obtain ⟨w, hw, hw1, hw2⟩ := ih (cds + oneDay) (cde + oneDay) endd
          (by have := oneDay_pos; omega) h2 (by omega) t (by omega) ht3
        exact ⟨w, List.mem_cons_of_mem _ hw, hw1, hw2⟩
    · have hval := clampEnd_eq_lastWindowEnd h h2 hinv
      exact ⟨(cds, clampEnd cde endd), List.mem_cons_self _ _, ht1,
        by omega⟩

/-- C1 counterexample input: syncing exactly one day, `[0, oneDay)`.
The only fetched window is `(0, oneDay - 1)`: the clamp never fires and
the final window's end is `end_date` minus one microsecond, not
`end_date` as the claim states. -/
theorem c1_final_window_end_counterexample :
    syncWindows 0 oneDay = [(0, oneDay - 1)] ∧
    ¬ ((syncWindows 0 oneDay).getLast?.map Prod.snd = some oneDay) := by
  have hlist : syncWindows 0 oneDay = [(0, oneDay - 1)] := by
    unfold syncWindows
    rw [walkWindows_pos _ (by decide), walkWindows_neg _ (by omega)]
    have hc : clampEnd (0 + oneDay - 1) oneDay = oneDay - 1 := by
      have := oneDay_pos
      unfold clampEnd
      split <;> omega
    rw [hc]
  refine ⟨hlist, ?_⟩
  rw [hlist]
  have := oneDay_pos
  simp only [List.getLast?_singleton, Option.map_some', Option.some.injEq]
  omega

/-- C1 (amended): for `start < endd` the fetched windows, read as closed
intervals of microsecond ticks, are well-formed, each at most one day
long, clamped to the global end before the fetch, contiguous
(each next start is the previous end plus one microsecond), pairwise
disjoint, and they cover `[start, lastWindowEnd start endd]`; the final
window's end is `endd` when `endd - start` is not an exact multiple of
one day, and `endd - 1` microsecond when it is. -/
theorem c1_window_partition_amended (start endd : Nat) (h : start < endd) :
    (∀ w ∈ syncWindows start endd,
        start ≤ w.1 ∧ w.1 ≤ w.2 ∧ w.2 ≤ endd ∧ w.2 + 1 ≤ w.1 + oneDay) ∧
    (syncWindows start endd).head? =
      some (start, clampEnd (start + oneDay - 1) endd) ∧
    List.Chain' (fun a b : Nat × Nat => b.1 = a.2 + 1)
      (syncWindows start endd) ∧
    List.Pairwise (fun a b : Nat × Nat => a.2 < b.1)
      (syncWindows start endd) ∧
    (∀ t, start ≤ t → t ≤ lastWindowEnd start endd →
        ∃ w ∈ syncWindows start endd, w.1 ≤ t ∧ t ≤ w.2) ∧
    (syncWindows start endd).getLast?.map Prod.snd =
      some (lastWindowEnd start endd) := by
  have hinv : (start + oneDay - 1) + 1 = start + oneDay := by
    have := oneDay_pos
    omega
  refine ⟨walk_mem_aux (endd - start) start _ endd le_rfl hinv, ?_,
    walk_chain_aux (endd - start) start _ endd le_rfl hinv,
    walk_pairwise_aux (endd - start) start _ endd le_rfl hinv,
    walk_cover_aux (endd - start) start _ endd le_rfl h hinv,
    walk_last_aux (endd - start) start _ endd le_rfl h hinv⟩
  unfold syncWindows
  rw [walkWindows_pos _ h]
  simp

/-- C1 witness: the amended theorem applied at the concrete range
`[0, 1)`. -/
theorem c1_window_partition_amended_witness :
    0 < 1 ∧ ((syncWindows 0 1).getLast?.map Prod.snd =
      some (lastWindowEnd 0 1)) :=
  ⟨by decide, (c1_window_partition_amended 0 1 (by decide)).2.2.2.2.2⟩

/-- Loop state of the per-market sync loop of
`get_trade_history_between_dates` (`poloniex_bot.py` lines 44-65):
`current_date_start`, `current_date_end`, and the in-memory accumulator
`trade_history`.  Records are abstracted to an arbitrary type `α`;
a fetch result of `none` models the `try` block raising (API, parse or
`insert_many` error), which the `except` clause catches and logs. -/
structure TradeState (α : Type) where
  cds : Nat
  cde : Nat
  data : List α
deriving DecidableEq

/-- One iteration of the `while current_date_start < end_date` loop of
`get_trade_history_between_dates` (lines 46-65): clamp the window end,
try the fetch; on success append the records and advance both bounds by
one day; on an exception leave everything else unchanged. -/
def tradeStep {α : Type} (endd : Nat) (fetch : Nat → Nat → Option (List α))
    (st : TradeState α) : TradeState α :=
  let cde1 := clampEnd st.cde endd
  match fetch st.cds cde1 with
  | some recs => ⟨st.cds + oneDay, cde1 + oneDay, st.data ++ recs⟩
  | none => ⟨st.cds, cde1, st.data⟩

/-- Guarded runner for the trade-history loop: perform at most `n`
iterations, stopping as the code does when
`current_date_start < end_date` fails. -/
def tradeRun {α : Type} (endd : Nat) (fetch : Nat → Nat → Option (List α)) :
    Nat → TradeState α → TradeState α
  | 0, st => st
  | Nat.succ n, st =>
      if st.cds < endd then tradeRun endd fetch n (tradeStep endd fetch st)
      else st

/-- Initial per-market state (`poloniex_bot.py` lines 44-45):
`current_date_start = start_date`,
`current_date_end = start_date + timedelta(days=1) - timedelta(microseconds=1)`. -/
def initTrade {α : Type} (start : Nat) : TradeState α :=
  ⟨start, start + oneDay - 1, []⟩

/-- Loop state of the per-market loop of `get_chart_data_between_dates`
(`poloniex_bot.py` lines 136-174): window bounds, the `atempt`
dictionary (keyed by the window start; an absent key is represented by
count `0`, faithful because stored counts are always ≥ 1), and the
in-memory accumulator `chart_data`. -/
structure ChartState (α : Type) where
  cds : Nat
  cde : Nat
  atempt : Nat → Nat
  data : List α

/-- The `atempt` update at the top of each loop iteration
(lines 148-151): set the current window start's count to 1 if absent,
else increment it. -/
def bumpAtempt {α : Type} (st : ChartState α) : Nat → Nat :=
  fun k => if k = st.cds then st.atempt st.cds + 1 else st.atempt k

/-- One iteration of the `while current_date_start < end_date` loop of
`get_chart_data_between_dates` (lines 139-174): clamp, count the
attempt, try the fetch (normalization and `insert_many` included in the
`try`), advance on success, and afterwards (lines 172-174) force-advance
both bounds by one day when the current window start's attempt count
equals 5.  On success the post-check reads the count of the already
advanced start, exactly as the code does. -/
def chartStep {α : Type} (endd : Nat) (fetch : Nat → Nat → Option (List α))
    (st : ChartState α) : ChartState α :=
  let cde1 := clampEnd st.cde endd
  let a1 := bumpAtempt st
  match fetch st.cds cde1 with
  | some recs =>
      if a1 (st.cds + oneDay) = 5 then
        ⟨st.cds + oneDay + oneDay, cde1 + oneDay + oneDay, a1, st.data ++ recs⟩
      else
        ⟨st.cds + oneDay, cde1 + oneDay, a1, st.data ++ recs⟩
  | none =>
      if a1 st.cds = 5 then
        ⟨st.cds + oneDay, cde1 + oneDay, a1, st.data⟩
      else
        ⟨st.cds, cde1, a1, st.data⟩

/-- Guarded runner for the chart-data loop. -/
def chartRun {α : Type} (endd : Nat) (fetch : Nat → Nat → Option (List α)) :
    Nat → ChartState α → ChartState α
  | 0, st => st
  | Nat.succ n, st =>
      if st.cds < endd then chartRun endd fetch n (chartStep endd fetch st)
      else st

/-- Initial per-market state of `get_chart_data_between_dates`
(lines 136-138): fresh window bounds and an empty `atempt` dictionary. -/
def initChart {α : Type} (start : Nat) : ChartState α :=
  ⟨start, start + oneDay - 1, fun _ => 0, []⟩

/-- Loop state of the per-market loop of `get_complete_trade_history`
(`poloniex_bot.py` lines 92-118).  `end_date` is mutable there
(live-tail refreshes it), so it is part of the state. -/
structure CompleteState (α : Type) where
  cds : Nat
  cde : Nat
  endd : Nat
  data : List α
deriving DecidableEq

/-- One iteration of the `while current_date_start < end_date` loop of
`get_complete_trade_history` (lines 94-118).  On success, if
`current_date_end + timedelta(days=1) > end_date` the live-tail branch
runs: `current_date_start = current_date_end`, `time.sleep(60)`, then
`current_date_end = end_date = datetime.now()`; `now1` is the value
`datetime.now()` returns after that sleep.  Otherwise both bounds
advance by one day.  On an exception nothing else changes. -/
def completeStep {α : Type} (fetch : Nat → Nat → Option (List α))
    (now1 : Nat) (st : CompleteState α) : CompleteState α :=
  let cde1 := clampEnd st.cde st.endd
  match fetch st.cds cde1 with
  | some recs =>
      if cde1 + oneDay > st.endd then
        ⟨cde1, now1, now1, st.data ++ recs⟩
      else
        ⟨st.cds + oneDay, cde1 + oneDay, st.endd, st.data ++ recs⟩
  | none => ⟨st.cds, cde1, st.endd, st.data⟩

/-- Guarded runner for the complete-history loop; `nows n` is the clock
value observed if the `n`-th remaining iteration refreshes `end_date`. -/
def completeRun {α : Type} (fetch : Nat → Nat → Option (List α))
    (nows : Nat → Nat) : Nat → CompleteState α → CompleteState α
  | 0, st => st
  | Nat.succ n, st =>
      if st.cds < st.endd then
        completeRun fetch nows n (completeStep fetch (nows n) st)
      else st

/-- Initial per-market state of `get_complete_trade_history`
(lines 84-85, 92-93): `start_date = currency_start_date`,
`end_date = datetime.now()` at entry. -/
def initComplete {α : Type} (start endd : Nat) : CompleteState α :=
  ⟨start, start + oneDay - 1, endd, []⟩

lemma clampEnd_idem (x e : Nat) : clampEnd (clampEnd x e) e = clampEnd x e :=
  clampEnd_of_le (clampEnd_le_right x e)

lemma bumpAtempt_self {α : Type} (st : ChartState α) :
    bumpAtempt st st.cds = st.atempt st.cds + 1 := by
  simp [bumpAtempt]

/-- A failing iteration whose bumped attempt count is not 5: the counter
is bumped, the clamp sticks, and nothing else changes. -/
lemma chartStep_fail_lt {α : Type} {endd : Nat}
    {fetch : Nat → Nat → Option (List α)} {st : ChartState α}
    (hf : fetch st.cds (clampEnd st.cde endd) = none)
    (hcnt : st.atempt st.cds + 1 ≠ 5) :
    chartStep endd fetch st =
      ⟨st.cds, clampEnd st.cde endd, bumpAtempt st, st.data⟩ := by
  simp only [chartStep, hf, bumpAtempt_self]
  rw [if_neg hcnt]

/-- A failing iteration whose bumped attempt count is exactly 5: both
window bounds are force-advanced by one day. -/
lemma chartStep_fail_eq {α : Type} {endd : Nat}
    {fetch : Nat → Nat → Option (List α)} {st : ChartState α}
    (hf : fetch st.cds (clampEnd st.cde endd) = none)
    (hcnt : st.atempt st.cds + 1 = 5) :
    chartStep endd fetch st =
      ⟨st.cds + oneDay, clampEnd st.cde endd + oneDay, bumpAtempt st,
        st.data⟩ := by
  simp only [chartStep, hf, bumpAtempt_self]
  rw [if_pos hcnt]

lemma chartRun_stop {α : Type} {endd : Nat}
    {fetch : Nat → Nat → Option (List α)} {st : ChartState α}
    (h : ¬ st.cds < endd) : ∀ n, chartRun endd fetch n st = st := by
  intro n
  cases n with
  | zero => rfl
  | succ n => simp [chartRun, h]

lemma chartRun_add {α : Type} (endd : Nat)
    (fetch : Nat → Nat → Option (List α)) :
    ∀ (a b : Nat) (st : ChartState α),
      chartRun endd fetch (a + b) st =
        chartRun endd fetch b (chartRun endd fetch a st) := by
  intro a
  induction a with
  | zero =>
    intro b st
    simp [chartRun]
  | succ n ih =>
    intro b st
    rw [Nat.succ_add]
    show (if st.cds < endd then
        chartRun endd fetch (n + b) (chartStep endd fetch st) else st) =
      chartRun endd fetch b
        (if st.cds < endd then
          chartRun endd fetch n (chartStep endd fetch st) else st)
    by_cases h : st.cds < endd
    · simp only [if_pos h]
      exact ih b (chartStep endd fetch st)
    · simp only [if_neg h]
      exact (chartRun_stop h b).symm

lemma chartRun_one {α : Type} {endd : Nat}
    {fetch : Nat → Nat → Option (List α)} {st : ChartState α}
    (h : st.cds < endd) :
    chartRun endd fetch 1 st = chartStep endd fetch st := by
  simp [chartRun, h]

/-- Running `k ∈ [1, 4]` always-failing iterations from a fresh market
state leaves the window in place and records `k` attempts. -/
lemma chart_fail_run (start endd : Nat) (h : start < endd) :
    ∀ k, 1 ≤ k → k ≤ 4 →
      chartRun endd (fun _ _ => (none : Option (List Unit))) k
          (initChart start) =
        ⟨start, clampEnd (start + oneDay - 1) endd,
          fun j => if j = start then k else 0, []⟩ := by
  intro k
  induction k with
  | zero => omega
  | succ n ih =>
    intro _ hk4
    by_cases hn : n = 0
    · subst hn
      rw [chartRun_one h, chartStep_fail_lt rfl (by simp [initChart])]
      have hfun : bumpAtempt (initChart start : ChartState Unit) =
          fun j => if j = start then 0 + 1 else 0 := by
        funext j
        by_cases hj : j = start <;> simp [bumpAtempt, initChart, hj]
      rw [hfun]
      rfl
    · have hstep := ih (by omega) (by omega)
      rw [chartRun_add endd _ n 1, hstep,
        chartRun_one (show start < endd from h),
        chartStep_fail_lt rfl (by simp; omega)]
      have hfun : bumpAtempt (⟨start, clampEnd (start + oneDay - 1) endd,
          fun j => if j = start then n else 0, []⟩ : ChartState Unit) =
          fun j => if j = start then n + 1 else 0 := by
        funext j
        by_cases hj : j = start <;> simp [bumpAtempt, hj]
      rw [hfun]
      show (⟨start, clampEnd (clampEnd (start + oneDay - 1) endd) endd, _,
        _⟩ : ChartState Unit) = _
      rw [clampEnd_idem]

/-- The full always-failing run after five iterations: the window has
been force-advanced by one day. -/
lemma chart_fail_run_five (start endd : Nat) (h : start < endd) :
    chartRun endd (fun _ _ => (none : Option (List Unit))) 5
        (initChart start) =
      ⟨start + oneDay, clampEnd (start + oneDay - 1) endd + oneDay,
        fun j => if j = start then 5 else 0, []⟩ := by
  have h4 := chart_fail_run start endd h 4 (by omega) (by omega)
  rw [show (5 : Nat) = 4 + 1 from rfl, chartRun_add endd _ 4 1, h4,
    chartRun_one (show start < endd from h),
    chartStep_fail_eq rfl (by simp)]
  have hfun : bumpAtempt (⟨start, clampEnd (start + oneDay - 1) endd,
      fun j => if j = start then 4 else 0, []⟩ : ChartState Unit) =
      fun j => if j = start then 5 else 0 := by
    funext j
    by_cases hj : j = start <;> simp [bumpAtempt, hj]
  rw [hfun]
  show (⟨start + oneDay, clampEnd (clampEnd (start + oneDay - 1) endd) endd
    + oneDay, _, _⟩ : ChartState Unit) = _
  rw [clampEnd_idem]

/-- C2: in `get_chart_data_between_dates` the `atempt` dictionary counts
attempts per window start; with an always-failing fetch the first four
iterations leave the window start unchanged (four attempts recorded),
the fifth iteration force-advances both window bounds by one day, and in
general a failing iteration whose bumped attempt count is below 5 never
advances the window. -/
theorem c2_attempt_counter_force_advance (start endd : Nat)
    (h : start < endd) :
    ((chartRun endd (fun _ _ => (none : Option (List Unit))) 4
        (initChart start)).cds = start ∧
      (chartRun endd (fun _ _ => (none : Option (List Unit))) 4
        (initChart start)).atempt start = 4) ∧
    ((chartRun endd (fun _ _ => (none : Option (List Unit))) 5
        (initChart start)).cds = start + oneDay ∧
      (chartRun endd (fun _ _ => (none : Option (List Unit))) 5
        (initChart start)).cde
          = clampEnd (start + oneDay - 1) endd + oneDay) ∧
    (∀ (β : Type) (fetch : Nat → Nat → Option (List β)) (st : ChartState β),
        fetch st.cds (clampEnd st.cde endd) = none →
        st.atempt st.cds + 1 < 5 →
        (chartStep endd fetch st).cds = st.cds ∧
        (chartStep endd fetch st).cde = clampEnd st.cde endd ∧
        (chartStep endd fetch st).atempt st.cds = st.atempt st.cds + 1) := by
  have h4 := chart_fail_run start endd h 4 (by omega) (by omega)
  have h5 := chart_fail_run_five start endd h
  refine ⟨?_, ?_, ?_⟩
  · rw [h4]
    simp
  · rw [h5]
    exact ⟨rfl, rfl⟩
  · intro β fetch st hf hcnt
    rw [chartStep_fail_lt hf (by omega)]
    exact ⟨rfl, rfl, by simp [bumpAtempt]⟩

/-- C2 witness: the theorem applied at the concrete range `[0, 1)`. -/
theorem c2_attempt_counter_force_advance_witness :
    (chartRun 1 (fun _ _ => (none : Option (List Unit))) 5
      (initChart 0)).cds = 0 + oneDay :=
  (c2_attempt_counter_force_advance 0 1 (by decide)).2.1.1

lemma tradeStep_fail {α : Type} (endd : Nat)
    (fetch : Nat → Nat → Option (List α)) (st : TradeState α)
    (hf : fetch st.cds (clampEnd st.cde endd) = none) :
    tradeStep endd fetch st = ⟨st.cds, clampEnd st.cde endd, st.data⟩ := by
  simp only [tradeStep, hf]

lemma tradeRun_fail_cds (endd : Nat) :
    ∀ (n : Nat) (st : TradeState Unit),
      (tradeRun endd (fun _ _ => (none : Option (List Unit))) n st).cds
        = st.cds := by
  intro n
  induction n with
  | zero => intro st; rfl
  | succ m ih =>
    intro st
    show (if st.cds < endd then
      tradeRun endd (fun _ _ => none) m
        (tradeStep endd (fun _ _ => none) st) else st).cds = st.cds
    by_cases h : st.cds < endd
    · rw [if_pos h, ih]
      rfl
    · rw [if_neg h]

lemma completeStep_fail {α : Type}
    (fetch : Nat → Nat → Option (List α)) (now1 : Nat)
    (st : CompleteState α)
    (hf : fetch st.cds (clampEnd st.cde st.endd) = none) :
    completeStep fetch now1 st =
      ⟨st.cds, clampEnd st.cde st.endd, st.endd, st.data⟩ := by
  simp only [completeStep, hf]

lemma completeRun_fail_frozen :
    ∀ (n : Nat) (nows : Nat → Nat) (st : CompleteState Unit),
      (completeRun (fun _ _ => (none : Option (List Unit))) nows n st).cds
          = st.cds ∧
        (completeRun (fun _ _ => (none : Option (List Unit))) nows n st).endd
          = st.endd := by
  intro n
  induction n with
  | zero => intro nows st; exact ⟨rfl, rfl⟩
  | succ m ih =>
    intro nows st
    show ((if st.cds < st.endd then
      completeRun (fun _ _ => none) nows m
        (completeStep (fun _ _ => none) (nows m) st) else st).cds = st.cds ∧ _)
    by_cases h : st.cds < st.endd
    · rw [if_pos h]
      have := ih nows (completeStep (fun _ _ => none) (nows m) st)
      rw [completeStep_fail _ _ _ rfl] at this
      show _ ∧ (if st.cds < st.endd then _ else st).endd = st.endd
      rw [if_pos h, completeStep_fail _ _ _ rfl]
      exact this
    · rw [if_neg h]
      show _ ∧ (if st.cds < st.endd then _ else st).endd = st.endd
      rw [if_neg h]
      exact ⟨rfl, rfl⟩

/-- Generalized always-failing run for `k ∈ [1, 4]` iterations: only the
current start's counter is touched. -/
lemma chart_fail_gen (endd cds0 : Nat) (a : Nat → Nat) (d : List Unit)
    (h : cds0 < endd) (ha : a cds0 = 0) :
    ∀ k, 1 ≤ k → k ≤ 4 →
      chartRun endd (fun _ _ => (none : Option (List Unit))) k
          ⟨cds0, cds0 + oneDay - 1, a, d⟩ =
        ⟨cds0, clampEnd (cds0 + oneDay - 1) endd,
          fun j => if j = cds0 then k else a j, d⟩ := by
  intro k
  induction k with
  | zero => omega
  | succ n ih =>
    intro _ hk4
    by_cases hn : n = 0
    · subst hn
      rw [chartRun_one h, chartStep_fail_lt rfl (by simp [ha])]
      have hfun : bumpAtempt (⟨cds0, cds0 + oneDay - 1, a, d⟩ :
          ChartState Unit) = fun j => if j = cds0 then 0 + 1 else a j := by
        funext j
        by_cases hj : j = cds0 <;> simp [bumpAtempt, hj, ha]
      rw [hfun]
    · have hstep := ih (by omega) (by omega)
      rw [chartRun_add endd _ n 1, hstep,
        chartRun_one (show cds0 < endd from h),
        chartStep_fail_lt rfl (by simp; omega)]
      have hfun : bumpAtempt (⟨cds0, clampEnd (cds0 + oneDay - 1) endd,
          fun j => if j = cds0 then n else a j, d⟩ : ChartState Unit) =
          fun j => if j = cds0 then n + 1 else a j := by
        funext j
        by_cases hj : j = cds0 <;> simp [bumpAtempt, hj]
      rw [hfun]
      show (⟨cds0, clampEnd (clampEnd (cds0 + oneDay - 1) endd) endd, _,
        _⟩ : ChartState Unit) = _
      rw [clampEnd_idem]

/-- Generalized always-failing run: the fifth iteration force-advances
the window by one day. -/
lemma chart_fail_gen_five (endd cds0 : Nat) (a : Nat → Nat) (d : List Unit)
    (h : cds0 < endd) (ha : a cds0 = 0) :
    chartRun endd (fun _ _ => (none : Option (List Unit))) 5
        ⟨cds0, cds0 + oneDay - 1, a, d⟩ =
      ⟨cds0 + oneDay, clampEnd (cds0 + oneDay - 1) endd + oneDay,
        fun j => if j = cds0 then 5 else a j, d⟩ := by
  have h4 := chart_fail_gen endd cds0 a d h ha 4 (by omega) (by omega)
  rw [show (5 : Nat) = 4 + 1 from rfl, chartRun_add endd _ 4 1, h4,
    chartRun_one (show cds0 < endd from h),
    chartStep_fail_eq rfl (by simp)]
  have hfun : bumpAtempt (⟨cds0, clampEnd (cds0 + oneDay - 1) endd,
      fun j => if j = cds0 then 4 else a j, d⟩ : ChartState Unit) =
      fun j => if j = cds0 then 5 else a j := by
    funext j
    by_cases hj : j = cds0 <;> simp [bumpAtempt, hj]
  rw [hfun]
  show (⟨cds0 + oneDay, clampEnd (clampEnd (cds0 + oneDay - 1) endd) endd
    + oneDay, _, _⟩ : ChartState Unit) = _
  rw [clampEnd_idem]

/-- With an always-failing fetch the chart loop still exits: every
window start consumes at most five iterations before being
force-advanced. -/
lemma chart_terminates_aux (endd : Nat) :
    ∀ (N cds0 : Nat) (a : Nat → Nat) (d : List Unit),
      endd - cds0 ≤ N → (∀ k, cds0 ≤ k → a k = 0) →
      ∃ n, ¬ (chartRun endd (fun _ _ => (none : Option (List Unit))) n
        ⟨cds0, cds0 + oneDay - 1, a, d⟩).cds < endd := by
  intro N
  induction N with
  | zero =>
    intro cds0 a d hN _
    exact ⟨0, by show ¬ cds0 < endd; omega⟩
  | succ m ih =>
    intro cds0 a d hN hfresh
    by_cases h : cds0 < endd
    · have h5 := chart_fail_gen_five endd cds0 a d h (hfresh cds0 le_rfl)
      by_cases h2 : cds0 + oneDay < endd
      · have hnoclamp : clampEnd (cds0 + oneDay - 1) endd
            = cds0 + oneDay - 1 := clampEnd_of_le (by omega)
        have hfresh2 : ∀ k, cds0 + oneDay ≤ k →
            (fun j => if j = cds0 then 5 else a j) k = 0 := by
          intro k hk
          have := oneDay_pos
          have hk2 : k ≠ cds0 := by omega
          simp only [if_neg hk2]
          exact hfresh k (by omega)
        obtain ⟨n, hn⟩ := ih (cds0 + oneDay)
          (fun j => if j = cds0 then 5 else a j) d
          (by have := oneDay_pos; omega) hfresh2
        refine ⟨5 + n, ?_⟩
        rw [chartRun_add endd _ 5 n, h5, hnoclamp]
        have hshape : cds0 + oneDay - 1 + oneDay
            = cds0 + oneDay + oneDay - 1 := by
          have := oneDay_pos
          omega
        rw [hshape]
        exact hn
      · refine ⟨5, ?_⟩
        rw [h5]
        show ¬ cds0 + oneDay < endd
        exact h2
    · exact ⟨0, by show ¬ cds0 < endd; omega⟩

/-- C3 counterexample: with a permanently failing fetch,
`get_trade_history_between_dates` makes no forward progress: the fresh
state for the range `[0, oneDay)` is a fixed point of the loop body
while the loop guard still holds, and after 100 iterations the window
start is still 0.  The claim that every sync function bounds retries and
terminates is therefore false. -/
theorem c3_unbounded_retry_counterexample :
    tradeStep oneDay (fun _ _ => (none : Option (List Unit)))
        (initTrade 0) = initTrade 0 ∧
    (initTrade 0 : TradeState Unit).cds < oneDay ∧
    (tradeRun oneDay (fun _ _ => (none : Option (List Unit))) 100
      (initTrade 0)).cds = 0 := by
  refine ⟨by decide, by decide, ?_⟩
  exact tradeRun_fail_cds oneDay 100 (initTrade 0)

/-- C3 (amended): only `get_chart_data_between_dates` bounds retries —
its stall counter force-advances every window after five attempts, so
with an always-failing fetch its loop still reaches the exit condition;
`get_trade_history_between_dates` and `get_complete_trade_history` never
advance on failure, so with a permanently failing fetch their window
start (and, for the live-tail variant, the global end) stays frozen
forever. -/
theorem c3_retry_bound_amended (start endd : Nat) :
    (∃ n, ¬ (chartRun endd (fun _ _ => (none : Option (List Unit))) n
        (initChart start)).cds < endd) ∧
    (∀ n, (tradeRun endd (fun _ _ => (none : Option (List Unit))) n
        (initTrade start)).cds = start) ∧
    (∀ (n : Nat) (nows : Nat → Nat),
        (completeRun (fun _ _ => (none : Option (List Unit))) nows n
          (initComplete start endd)).cds = start ∧
        (completeRun (fun _ _ => (none : Option (List Unit))) nows n
          (initComplete start endd)).endd = endd) := by
  refine ⟨?_, ?_, ?_⟩
  · exact chart_terminates_aux endd (endd - start) start (fun _ => 0) []
      le_rfl (fun _ _ => rfl)
  · intro n
    exact tradeRun_fail_cds endd n (initTrade start)
  · intro n nows
    exact completeRun_fail_frozen n nows (initComplete start endd)

/-- C4 counterexample: syncing `[0, 2*oneDay)` in
`get_chart_data_between_dates` with a fetch that always raises, the
first four failing attempts leave the window start at 0, but the fifth
failing attempt moves it to `oneDay`: a failing attempt does not always
leave the window state unchanged, so the same window is not always
retried. -/
theorem c4_failure_advances_window_counterexample :
    (chartRun (oneDay + oneDay) (fun _ _ => (none : Option (List Unit))) 4
      (initChart 0)).cds = 0 ∧
    (chartRun (oneDay + oneDay) (fun _ _ => (none : Option (List Unit))) 5
      (initChart 0)).cds = oneDay ∧
    oneDay ≠ 0 := by
  have h4 := chart_fail_run 0 (oneDay + oneDay)
    (by have := oneDay_pos; omega) 4 (by omega) (by omega)
  have h5 := chart_fail_run_five 0 (oneDay + oneDay)
    (by have := oneDay_pos; omega)
  refine ⟨?_, ?_, by decide⟩
  · rw [h4]
  · rw [h5]
    show 0 + oneDay = oneDay
    omega

/-- C4 (amended): when the try block raises, both sync functions catch
the exception (the step functions are total); in
`get_trade_history_between_dates` the window start, the clamped window
end used in the attempt and the in-memory accumulator are unchanged, so
the same window is retried; `get_chart_data_between_dates` behaves the
same except when the bumped per-window attempt counter reaches 5, in
which case the window is force-advanced by the stall policy. -/
theorem c4_failure_preserves_state_amended (endd : Nat)
    (fetch : Nat → Nat → Option (List Unit))
    (stT : TradeState Unit) (stC : ChartState Unit)
    (hfT : fetch stT.cds (clampEnd stT.cde endd) = none)
    (hfC : fetch stC.cds (clampEnd stC.cde endd) = none)
    (hcnt : stC.atempt stC.cds + 1 ≠ 5) :
    tradeStep endd fetch stT = ⟨stT.cds, clampEnd stT.cde endd, stT.data⟩ ∧
    (chartStep endd fetch stC).cds = stC.cds ∧
    (chartStep endd fetch stC).cde = clampEnd stC.cde endd ∧
    (chartStep endd fetch stC).data = stC.data := by
  refine ⟨tradeStep_fail endd fetch stT hfT, ?_, ?_, ?_⟩ <;>
    rw [chartStep_fail_lt hfC hcnt]

/-- C4 witness: the amended theorem applied to the fresh states for the
range `[0, oneDay)` with an always-raising fetch. -/
theorem c4_failure_preserves_state_amended_witness :
    tradeStep oneDay (fun _ _ => (none : Option (List Unit)))
        (initTrade 0) =
      ⟨(initTrade 0 : TradeState Unit).cds,
        clampEnd (initTrade 0 : TradeState Unit).cde oneDay,
        (initTrade 0 : TradeState Unit).data⟩ ∧
    (chartStep oneDay (fun _ _ => (none : Option (List Unit)))
        (initChart 0)).cds = (initChart 0 : ChartState Unit).cds ∧
    (chartStep oneDay (fun _ _ => (none : Option (List Unit)))
        (initChart 0)).cde
      = clampEnd (initChart 0 : ChartState Unit).cde oneDay ∧
    (chartStep oneDay (fun _ _ => (none : Option (List Unit)))
        (initChart 0)).data = (initChart 0 : ChartState Unit).data :=
  c4_failure_preserves_state_amended oneDay (fun _ _ => none)
    (initTrade 0) (initChart 0) rfl rfl (by decide)

/-- C5 counterexample: in `get_complete_trade_history`, with
`end_date = 3*oneDay`, a successful fetch of the window ending at
`3*oneDay - 2` — strictly before the global end, i.e. the window end has
neither reached nor exceeded `now()` — still takes the live-tail branch
(because `cde + oneDay > end_date`): the global end is refreshed and the
window start jumps to the old window end instead of advancing by one
day.  The claimed trigger "window end equalling or exceeding now()" is
therefore wrong. -/
theorem c5_livetail_trigger_counterexample :
    ((⟨2 * oneDay - 1, 3 * oneDay - 2, 3 * oneDay, []⟩ :
        CompleteState Unit).cde <
      (⟨2 * oneDay - 1, 3 * oneDay - 2, 3 * oneDay, []⟩ :
        CompleteState Unit).endd) ∧
    (completeStep (fun _ _ => some []) (4 * oneDay)
        (⟨2 * oneDay - 1, 3 * oneDay - 2, 3 * oneDay, []⟩ :
          CompleteState Unit)).endd ≠ 3 * oneDay ∧
    (completeStep (fun _ _ => some []) (4 * oneDay)
        (⟨2 * oneDay - 1, 3 * oneDay - 2, 3 * oneDay, []⟩ :
          CompleteState Unit)).cds ≠ 2 * oneDay - 1 + oneDay := by
  decide

/-- C5 (amended): the live-tail branch triggers, after a successful
fetch, exactly when the clamped window end plus one day exceeds the
current global end; it then sets the window start to the clamped window
end, sleeps, and sets both the window end and the global end to the
refreshed clock value `now1`, and the loop keeps running whenever that
refreshed clock is ahead of the new window start. -/
theorem c5_livetail_amended {α : Type} (st : CompleteState α)
    (fetch : Nat → Nat → Option (List α)) (recs : List α) (now1 : Nat)
    (hf : fetch st.cds (clampEnd st.cde st.endd) = some recs)
    (htrig : clampEnd st.cde st.endd + oneDay > st.endd) :
    completeStep fetch now1 st =
      ⟨clampEnd st.cde st.endd, now1, now1, st.data ++ recs⟩ ∧
    (clampEnd st.cde st.endd < now1 →
      (completeStep fetch now1 st).cds < (completeStep fetch now1 st).endd) := by
  have hstep : completeStep fetch now1 st =
      ⟨clampEnd st.cde st.endd, now1, now1, st.data ++ recs⟩ := by
    simp only [completeStep, hf]
    rw [if_pos htrig]
  refine ⟨hstep, fun hlt => ?_⟩
  rw [hstep]
  exact hlt

/-- C5 witness: the amended theorem applied to a window one day below a
global end of `oneDay`, with the refreshed clock at `2*oneDay`. -/
theorem c5_livetail_amended_witness :
    completeStep (fun _ _ => some []) (2 * oneDay)
        (⟨0, oneDay - 1, oneDay, []⟩ : CompleteState Unit) =
      ⟨clampEnd (oneDay - 1) oneDay, 2 * oneDay, 2 * oneDay, [] ++ []⟩ :=
  (c5_livetail_amended ⟨0, oneDay - 1, oneDay, []⟩ (fun _ _ => some [])
    [] (2 * oneDay) rfl (by decide)).1

/-- Value held by the `date` field of a candle record: the raw API JSON
integer (UNIX seconds), or the converted Python timestamp, modelled by
the instant it denotes in microseconds since the epoch. -/
inductive DateVal where
  | unix (n : Nat)
  | stamp (usec : Nat)
deriving DecidableEq

/-- Value held by a numeric field of a candle record: the raw API string
or the converted Python float, modelled as an exact rational. -/
inductive NumVal where
  | str (s : String)
  | flt (q : Rat)
deriving DecidableEq

/-- One candle record of the `returnChartData` API
(`{date, high, low, open, close, volume, quoteVolume, weightedAverage}`)
plus the `market` tag attached by the sync loop (`none` before
tagging).  `open` is a Lean keyword, hence the field name `open_`. -/
structure CandleRec where
  date : DateVal
  high : NumVal
  low : NumVal
  open_ : NumVal
  close : NumVal
  volume : NumVal
  quoteVolume : NumVal
  weightedAverage : NumVal
  market : Option String
deriving DecidableEq

/-- Python `int()` applied to the `date` field: succeeds on the raw JSON
integer, raises `TypeError` on an already-converted `datetime`. -/
def pyInt (v : DateVal) : Option Nat :=
  match v with
  | .unix n => some n
  | .stamp _ => none

def digitVal (c : Char) : Option Nat :=
  if c.isDigit then some (c.toNat - 48) else none

def digitsToNat (cs : List Char) : Option Nat :=
  match cs with
  | [] => none
  | _ => cs.foldl
      (fun acc c => acc.bind fun a => (digitVal c).map fun d => a * 10 + d)
      (some 0)

/-- Split a character list at the first decimal point. -/
def splitDot : List Char → List Char × Option (List Char)
  | [] => ([], none)
  | c :: cs =>
      if c = '.' then ([], some cs)
      else
        let r := splitDot cs
        (c :: r.1, r.2)

/-- Python `float()` applied to the decimal string literals delivered by
this API (digits with at most one decimal point and digits on both
sides), modelled exactly: the value of `n.f` with `k` fractional digits
is the rational `(n * 10 ^ k + f) / 10 ^ k`. -/
def parseDecimal (s : String) : Option Rat :=
  match splitDot s.toList with
  | (intPart, none) => (digitsToNat intPart).map fun n => mkRat n 1
  | (intPart, some fracPart) =>
      match digitsToNat intPart, digitsToNat fracPart with
      | some n, some f =>
          some (mkRat (n * 10 ^ fracPart.length + f) (10 ^ fracPart.length))
      | _, _ => none

/-- Python `float()` applied to a numeric field: parses a raw string,
and is the identity on an already-converted float. -/
def pyFloat (v : NumVal) : Option Rat :=
  match v with
  | .str s => parseDecimal s
  | .flt q => some q

/-- Normalization of one candle record performed inside the `for` loop
of `get_chart_data_between_dates` (`poloniex_bot.py` lines 154-163):
`market` is attached, `date` is converted via
`datetime.fromtimestamp(int(date))` — the resulting timestamp denotes
the instant `int(date)` seconds since the epoch, stored here in
microseconds — and the seven numeric fields are coerced by `float()`.
A `none` result models the loop body raising (for example `int()` of an
already-converted timestamp raises `TypeError`). -/
def normalizeCandle (market : String) (c : CandleRec) : Option CandleRec :=
  match pyInt c.date, pyFloat c.high, pyFloat c.low, pyFloat c.open_,
      pyFloat c.close, pyFloat c.volume, pyFloat c.quoteVolume,
      pyFloat c.weightedAverage with
  | some d, some hi, some lo, some op, some cl, some vo, some qv, some wa =>
      some ⟨.stamp (d * 1000000), .flt hi, .flt lo, .flt op, .flt cl,
        .flt vo, .flt qv, .flt wa, some market⟩
  | _, _, _, _, _, _, _, _ => none

/-- Days from 1970-01-01 to the given Gregorian date (valid from 1970
on); standard era-based civil calendar algorithm. -/
def daysFromCivil (y m d : Nat) : Nat :=
  let y2 := if m ≤ 2 then y - 1 else y
  let era := y2 / 400
  let yoe := y2 % 400
  let mp := (m + 9) % 12
  let doy := (153 * mp + 2) / 5 + d - 1
  let doe := yoe * 365 + yoe / 4 - yoe / 100 + doy
  era * 146097 + doe - 719468

/-- Microseconds since the epoch of a UTC calendar date and time. -/
def epochUsec (y m d hh mi ss : Nat) : Nat :=
  (daysFromCivil y m d * 86400 + hh * 3600 + mi * 60 + ss) * 1000000

lemma epochUsec_epoch_zero : epochUsec 1970 1 1 0 0 0 = 0 := by decide

/-- The raw candle record of the specification's round-trip example. -/
def rawCandle : CandleRec :=
  ⟨.unix 1405699200, .str "0.0045388", .str "0.00403001",
    .str "0.00404545", .str "0.00427592", .str "44.11655644",
    .str "10259.29079097", .str "0.00430015", none⟩

/-- The normalized form of `rawCandle`. -/
def normCandleVal (tag : String) : CandleRec :=
  ⟨.stamp 1405699200000000, .flt (mkRat 45388 10000000),
    .flt (mkRat 403001 100000000), .flt (mkRat 404545 100000000),
    .flt (mkRat 427592 100000000), .flt (mkRat 4411655644 100000000),
    .flt (mkRat 1025929079097 100000000), .flt (mkRat 430015 100000000),
    some tag⟩

/-- C6 counterexample: normalizing the specification's example candle
does succeed, but the resulting date is not the instant
2014-07-18 12:00:00 UTC — 1405699200 seconds since the epoch is
2014-07-18 16:00:00 UTC. -/
theorem c6_candle_roundtrip_counterexample :
    ((normalizeCandle "BTC_ETH" rawCandle).map CandleRec.date ≠
      some (DateVal.stamp (epochUsec 2014 7 18 12 0 0))) ∧
    (normalizeCandle "BTC_ETH" rawCandle).isSome = true := by
  decide

/-- C6 (amended): normalizing the example candle yields the instant
2014-07-18 16:00:00 UTC (the code renders it with the local-time
`fromtimestamp`, but the denoted instant is 16:00 UTC), the seven
numeric fields hold exactly the decimal values of the input strings
(floats modelled as rationals), and `market` is the caller's tag. -/
theorem c6_candle_roundtrip_amended (tag : String) :
    normalizeCandle tag rawCandle =
      some ⟨.stamp (epochUsec 2014 7 18 16 0 0),
        .flt (mkRat 45388 10000000), .flt (mkRat 403001 100000000),
        .flt (mkRat 404545 100000000), .flt (mkRat 427592 100000000),
        .flt (mkRat 4411655644 100000000),
        .flt (mkRat 1025929079097 100000000),
        .flt (mkRat 430015 100000000), some tag⟩ := by
  have h1 : parseDecimal "0.0045388" = some (mkRat 45388 10000000) := by
    decide
  have h2 : parseDecimal "0.00403001" = some (mkRat 403001 100000000) := by
    decide
  have h3 : parseDecimal "0.00404545" = some (mkRat 404545 100000000) := by
    decide
  have h4 : parseDecimal "0.00427592" = some (mkRat 427592 100000000) := by
    decide
  have h5 : parseDecimal "44.11655644"
      = some (mkRat 4411655644 100000000) := by
    decide
  have h6 : parseDecimal "10259.29079097"
      = some (mkRat 1025929079097 100000000) := by
    decide
  have h7 : parseDecimal "0.00430015" = some (mkRat 430015 100000000) := by
    decide
  have hdate : (1405699200 : Nat) * 1000000
      = epochUsec 2014 7 18 16 0 0 := by
    decide
  simp only [normalizeCandle, rawCandle, pyInt, pyFloat, h1, h2, h3, h4,
    h5, h6, h7, hdate]

/-- C7 counterexample: normalizing the example candle once succeeds, but
normalizing the result again yields an exception (`int()` applied to an
already-converted timestamp raises `TypeError`), so applying the
normalization twice does not equal applying it once. -/
theorem c7_normalize_idempotence_counterexample :
    (normalizeCandle "BTC_ETH" rawCandle).bind (normalizeCandle "BTC_ETH")
      = none ∧
    normalizeCandle "BTC_ETH" rawCandle ≠ none := by
  decide

/-- C7 (amended): candle normalization is never idempotent on records it
accepts: whenever normalization succeeds, re-normalizing the output
raises, because the date conversion applies `int()` to the
already-converted timestamp; the seven `float()` coercions alone would
be safely re-applicable, but the date conversion is not. -/
theorem c7_normalize_idempotence_amended (tag tag2 : String)
    (c c2 : CandleRec) (h : normalizeCandle tag c = some c2) :
    normalizeCandle tag2 c2 = none := by
  unfold normalizeCandle at h
  split at h
  · rename_i d hi lo op cl vo qv wa heq
    rw [Option.some.injEq] at h
    subst h
    rfl
  · exact absurd h (by simp)

/-- C7 witness: the amended theorem applied to the example candle and
its normalized form. -/
theorem c7_normalize_idempotence_amended_witness :
    normalizeCandle "X" (normCandleVal "BTC_ETH") = none :=
  c7_normalize_idempotence_amended "BTC_ETH" "X" rawCandle
    (normCandleVal "BTC_ETH") (by decide)

/-- Result of executing a piece of Python code: a returned value or a
raised exception. -/
inductive PyResult (α : Type) where
  | ok (a : α)
  | exn (msg : String)
deriving DecidableEq

/-- The expression `c.toLower()` in `get_complete_trade_history`
(`poloniex_bot.py` line 82): Python strings have no attribute `toLower`
(the method is named `lower`), so the attribute lookup raises
`AttributeError` for every string. -/
def pyStrToLower (_c : String) : PyResult String :=
  .exn "AttributeError"

/-- Outcome of the interactive confirmation gate. -/
inductive GateOutcome where
  | aborted
  | proceed
deriving DecidableEq

/-- The safety gate of `get_complete_trade_history`
(`poloniex_bot.py` lines 78-83), reached when `currency_pairs` is
`None`: print the prompt, read `c = input()`, and return early when
`c.toLower() == 'n'`, otherwise fall through to the sync. -/
def completeHistoryGate (answer : String) : PyResult GateOutcome :=
  match pyStrToLower answer with
  | .exn e => .exn e
  | .ok l => if l = "n" then .ok .aborted else .ok .proceed

/-- C8: the gate raises for every answer — here evaluated at the
claimed abort answer "n" and at an arbitrary other answer "y" —
because `c.toLower()` raises `AttributeError` (Python strings have
`lower`, not `toLower`); the clean abort/proceed behavior the claim
describes is the code's evident intent, but the code as written never
reaches the comparison. -/
theorem c8_gate_always_raises :
    completeHistoryGate "n" = PyResult.exn "AttributeError" ∧
    completeHistoryGate "y" = PyResult.exn "AttributeError" :=
  ⟨rfl, rfl⟩

/-- A ticker record built by `get_new_ticker_data`
(`poloniex_scraping_bot.py` lines 36-40): the raw per-market fields
plus the `market` key and `time` string attached in the loop. -/
structure TickerRec (α : Type) where
  fields : α
  market : String
  time : String
deriving DecidableEq

/-- `get_new_ticker_data` (`poloniex_scraping_bot.py` lines 23-46).
`fetchResult` is the outcome of `__poloniex__.return_ticker()` inside
the `try` block (`none` models it raising, caught by the bare
`except`); `nowStr` is the formatted `datetime.now()` string.  The
local variable `tickers` is first assigned after the fetch succeeds, so
it is modelled as an `Option`; the final `if not insert_to_database:
return tickers` reads it, raising `UnboundLocalError` when it was never
assigned.  Falling off the end of the function returns Python `None`,
modelled as `ok none`. -/
def getNewTickerData {α : Type} (fetchResult : Option (List (String × α)))
    (nowStr : String) (insert_to_database : Bool) :
    PyResult (Option (List (TickerRec α))) :=
  let tickers : Option (List (TickerRec α)) :=
    match fetchResult with
    | some td => some (td.map fun p => ⟨p.2, p.1, nowStr⟩)
    | none => none
  if insert_to_database then
    .ok none
  else
    match tickers with
    | some ts => .ok (some ts)
    | none => .exn "UnboundLocalError"

/-- C9: when the ticker fetch raises, calling with
`insert_to_database = False` makes the function itself raise — the
local `tickers` is read in the return statement without ever having
been assigned — while the default `insert_to_database = True` call
swallows the failure (logged) and returns `None`. -/
theorem c9_ticker_unbound_local (α : Type) (nowStr : String) :
    getNewTickerData (α := α) none nowStr false
        = PyResult.exn "UnboundLocalError" ∧
    getNewTickerData (α := α) none nowStr true = PyResult.ok none :=
  ⟨rfl, rfl⟩

/-- `Poloniex.get_all_markets` (`poloniex_wrapper.py` lines 192-202):
when `self.markets` is `None`, rebuild it from the 24h-volume snapshot,
keeping every key whose value is a dict; otherwise return the cache
unchanged.  `volumes` lists the response keys in iteration order
together with the `isinstance(volumes[market], dict)` flag; the result
is returned together with the new `self.markets`. -/
def getAllMarkets (volumes : List (String × Bool))
    (markets : Option (List String)) :
    List String × Option (List String) :=
  match markets with
  | some m => (m, some m)
  | none =>
      let m := (volumes.filter fun p => p.2).map fun p => p.1
      (m, some m)

/-- `Poloniex.get_all_btc_markets` (`poloniex_wrapper.py` lines
204-214): caches into the same `self.markets` field, rebuilt from the
ticker response and filtered by `market[:3] == 'BTC'`. -/
def getAllBtcMarkets (ticker : List (String × Bool))
    (markets : Option (List String)) :
    List String × Option (List String) :=
  match markets with
  | some m => (m, some m)
  | none =>
      let m := (ticker.filter fun p => p.2 && (p.1.take 3 == "BTC")).map
        fun p => p.1
      (m, some m)

/-- C10: both methods memoize into the same `self.markets` field:
whichever of the two runs first fills the cache, and every later call
to either method returns exactly the cached list, cache unchanged; in
particular `get_all_btc_markets` called after `get_all_markets` on a
24h-volume snapshot containing the dict-valued key "ETH_BTC" returns
["ETH_BTC"], whose name does not start with "BTC". -/
theorem c10_shared_markets_cache
    (volumes ticker volumes2 ticker2 : List (String × Bool)) :
    (getAllBtcMarkets ticker (getAllMarkets volumes none).2
        = ((getAllMarkets volumes none).1,
            (getAllMarkets volumes none).2)) ∧
    (getAllMarkets volumes2 (getAllMarkets volumes none).2
        = ((getAllMarkets volumes none).1,
            (getAllMarkets volumes none).2)) ∧
    (getAllMarkets volumes2 (getAllBtcMarkets ticker none).2
        = ((getAllBtcMarkets ticker none).1,
            (getAllBtcMarkets ticker none).2)) ∧
    (getAllBtcMarkets ticker2 (getAllBtcMarkets ticker none).2
        = ((getAllBtcMarkets ticker none).1,
            (getAllBtcMarkets ticker none).2)) ∧
    (getAllBtcMarkets ticker
        (getAllMarkets [("ETH_BTC", true)] none).2).1 = ["ETH_BTC"] ∧
    ("ETH_BTC".take 3 == "BTC") = false :=
  ⟨rfl, rfl, rfl, rfl, rfl, by decide⟩
